import Mathlib

/-!
# syz-extract: the constant extraction driver (`sys/syz-extract/extract.go`)

A shallow embedding of `main` and `compileConsts`.  The functions of other
packages that the driver calls (`ioutil.ReadFile`, `ast.Parse`,
`compiler.ExtractConsts`, `fetchValues`, `compiler.SerializeConsts`,
`osutil.WriteFile`) are fields of an environment record `Env`; what the process
does to the outside world is an explicit list of `Event`s, and `os.Exit` is an
`Outcome`.
-/

namespace SyzExtract

/-! ## Data model -/

/-- Go's `[]byte`. -/
abbrev Bytes := List UInt8

/-- The struct `Arch` (extract.go, lines 26-31). -/
structure Arch where
  CARCH : List String
  KernelHeaderArch : String
  KernelInclude : String
  CFlags : List String
  deriving DecidableEq, Repr

/-- The table `archs` (extract.go, lines 33-39): a Go map literal, written as the
list of its key/value pairs in source order. -/
def archs : List (String × Arch) :=
  [ ("amd64", ⟨["__x86_64__"], "x86", "asm/unistd.h", ["-m64"]⟩),
    ("386", ⟨["__i386__"], "x86", "asm/unistd.h", ["-m32"]⟩),
    ("arm64", ⟨["__aarch64__"], "arm64", "asm/unistd.h", []⟩),
    ("arm", ⟨["__arm__"], "arm", "asm/unistd.h", ["-D__LINUX_ARM_ARCH__=6", "-m32"]⟩),
    ("ppc64le", ⟨["__ppc64__", "__PPC64__", "__powerpc64__"], "powerpc", "asm/unistd.h",
      ["-D__powerpc64__"]⟩) ]

/-- The map index expression `archs[name]`: `none` is the nil pointer a missing key gives. -/
def archsLookup (name : String) : Option Arch :=
  archs.lookup name

/-- The command line after `flag.Parse()`: the four flag variables (lines 19-24)
and `flag.Args()`. -/
structure Flags where
  linux : String
  linuxBld : String
  arch : String
  v : Int
  args : List String
  deriving DecidableEq, Repr

/-- The fields of `compiler.ConstInfo` that `compileConsts` reads.  `Defines` is a
Go `map[string]string`; it is only passed on, and is kept as its list of pairs. -/
structure ConstInfo where
  Consts : List String
  Includes : List String
  Incdirs : List String
  Defines : List (String × String)
  deriving DecidableEq, Repr

/-- A Go value of type `map[string]uint64`: the nil map, or an allocated map given
by its key/value pairs. -/
inductive ConstMap where
  | nil : ConstMap
  | make (entries : List (String × Nat)) : ConstMap
  deriving DecidableEq, Repr

/-- The key/value pairs of a map; the nil map has none. -/
def ConstMap.entries : ConstMap → List (String × Nat)
  | .nil => []
  | .make kvs => kvs

/-- How many entries of the map have the key `name`. -/
def ConstMap.keyCount (m : ConstMap) (name : String) : Nat :=
  (m.entries.filter (fun kv => kv.1 == name)).length

/-- A value a Go program can hold: keys are unique and values fit 64 bits. -/
def ConstMap.WellFormed (m : ConstMap) : Prop :=
  (m.entries.map Prod.fst).Nodup ∧ ∀ kv ∈ m.entries, kv.2 < 2 ^ 64

/-- The six arguments of one call of `fetchValues` (lines 89-90), in order. -/
structure FetchCall where
  arch : String
  vals : List String
  includes : List String
  incdirs : List String
  defines : List (String × String)
  cflags : List String
  deriving DecidableEq, Repr

/-- The functions the driver calls and does not define.  An `error` is the text of
the Go `error`; `none` is a nil pointer result (for `writeFile`: a nil error).
`fetchValues` lives in package `main`, so it can also read the flag variables. -/
structure Env (Desc : Type) where
  readFile : String → Except String Bytes
  parse : Bytes → String → Option Desc
  extractConsts : Desc → Option ConstInfo
  fetchValues : Flags → FetchCall → Except String ConstMap
  serializeConsts : ConstMap → Bytes
  writeFile : String → Bytes → Option String

/-- What the process does that is visible outside of it, in order. -/
inductive Event where
  | stderr (text : String)
  | readFile (path : String)
  | parse (data : Bytes) (filename : String)
  | extractConsts
  | fetchValues (call : FetchCall)
  | serializeConsts (consts : ConstMap)
  | writeFile (path : String) (data : Bytes)
  deriving DecidableEq, Repr

/-- How a function ends: it returns a value, or the process has exited (`os.Exit`). -/
inductive Outcome (α : Type) where
  | ret (a : α) : Outcome α
  | exit (code : Nat) : Outcome α
  deriving DecidableEq, Repr

/-! ## Library functions used by the driver -/

/-- Go's `strings.TrimSuffix`: `s` without the trailing `suffix`, or `s` itself. -/
def trimSuffix (s suffix : String) : String :=
  if suffix.data.isSuffixOf s.data then
    String.mk (s.data.take (s.data.length - suffix.data.length))
  else s

/-- Go's `filepath.Base` on a Unix path: the last element, trailing slashes removed. -/
def filepathBase (path : String) : String :=
  if path = "" then "."
  else
    let stripped := path.data.reverse.dropWhile (fun c => c == '/')
    let last := stripped.takeWhile (fun c => c != '/')
    if last = [] then "/" else String.mk last.reverse

/-! ## The driver -/

/-- The function `failf` (lines 97-100), the message already formatted: after the
events `pre`, a line on the error stream, then `os.Exit(1)`. -/
def failf {α : Type} (pre : List Event) (text : String) : List Event × Outcome α :=
  (pre ++ [Event.stderr (text ++ "\n")], Outcome.exit 1)

/-- The function `logf` (lines 102-106). -/
def logf (flagV : Int) (v : Int) (text : String) : List Event :=
  if flagV ≥ v then [Event.stderr (text ++ "\n")] else []

/-- The events `pre` followed by what `r` does. -/
def after {α : Type} (pre : List Event) (r : List Event × Outcome α) : List Event × Outcome α :=
  (pre ++ r.1, r.2)

/-- The output file name (line 61). -/
def outname (inname flagArch : String) : String :=
  trimSuffix inname ".txt" ++ "_" ++ flagArch ++ ".const"

/-- The arguments `compileConsts` gives `fetchValues` (lines 89-90). -/
def fetchArgs (arch : Arch) (info : ConstInfo) : FetchCall :=
  { arch := arch.KernelHeaderArch
    vals := info.Consts
    includes := info.Includes ++ [arch.KernelInclude]
    incdirs := info.Incdirs
    defines := info.Defines
    cflags := arch.CFlags }

/-- The function `compileConsts` (lines 81-95). -/
def compileConsts {Desc : Type} (env : Env Desc) (flags : Flags) (arch : Arch) (desc : Desc) :
    List Event × Outcome ConstMap :=
  match env.extractConsts desc with
  | none => ([Event.extractConsts], Outcome.exit 1)
  | some info =>
    if info.Consts.length = 0 then
      ([Event.extractConsts], Outcome.ret ConstMap.nil)
    else
      match env.fetchValues flags (fetchArgs arch info) with
      | .error err => failf [Event.extractConsts, Event.fetchValues (fetchArgs arch info)] err
      | .ok consts =>
        ([Event.extractConsts, Event.fetchValues (fetchArgs arch info)], Outcome.ret consts)

/-- The flag variables after lines 46-49: an empty `-linuxbld` becomes `-linux`. -/
def defaultBld (flags : Flags) : Flags :=
  if flags.linuxBld = "" then { flags with linuxBld := flags.linux } else flags

/-- Lines 73-78 of `main`: compile, serialize, write. -/
def compileAndWrite {Desc : Type} (env : Env Desc) (flags : Flags) (arch : Arch)
    (inname : String) (desc : Desc) : List Event × Outcome Unit :=
  match compileConsts env flags arch desc with
  | (t, .exit code) => (t, Outcome.exit code)
  | (t, .ret consts) =>
    let data := env.serializeConsts consts
    let done := t ++ [Event.serializeConsts consts, Event.writeFile (outname inname flags.arch) data]
    match env.writeFile (outname inname flags.arch) data with
    | some err => failf done ("failed to write output file: " ++ err)
    | none => (done, Outcome.ret ())

/-- Lines 60-78 of `main`, reached with a known architecture and one argument. -/
def extractFile {Desc : Type} (env : Env Desc) (flags : Flags) (arch : Arch) (inname : String) :
    List Event × Outcome Unit :=
  match env.readFile inname with
  | .error err => failf [Event.readFile inname] ("failed to read input file: " ++ err)
  | .ok indata =>
    match env.parse indata (filepathBase inname) with
    | none =>
      ([Event.readFile inname, Event.parse indata (filepathBase inname)], Outcome.exit 1)
    | some desc =>
      after [Event.readFile inname, Event.parse indata (filepathBase inname)]
        (compileAndWrite env flags arch inname desc)

/-- The function `main` (lines 41-79), after `flag.Parse()`. -/
def main {Desc : Type} (env : Env Desc) (flags : Flags) : List Event × Outcome Unit :=
  if flags.linux = "" then
    failf [] "provide path to linux kernel checkout via -linux flag (or make extract LINUX= flag)"
  else
    let logged :=
      if flags.linuxBld = "" then
        logf flags.v 1 "No kernel build directory provided, assuming in-place build"
      else []
    if flags.arch = "" then
      failf logged "-arch flag is required"
    else
      match archsLookup flags.arch with
      | none => failf logged ("unknown arch " ++ flags.arch)
      | some arch =>
        match flags.args with
        | [inname] => after logged (extractFile env (defaultBld flags) arch inname)
        | _ =>
          failf logged "usage: syz-extract -linux=/linux/checkout -arch=arch sys/input_file.txt"

/-- The exit status of the process: 0 when `main` returns, else the code given to `os.Exit`. -/
def exitStatus (out : Outcome Unit) : Nat :=
  match out with
  | .ret _ => 0
  | .exit code => code

/-! ## Reading a trace -/

/-- The output-file writes of a trace: path and contents, in order. -/
def writes : List Event → List (String × Bytes)
  | [] => []
  | Event.writeFile path data :: rest => (path, data) :: writes rest
  | _ :: rest => writes rest

/-- The paths read in a trace, in order. -/
def reads : List Event → List String
  | [] => []
  | Event.readFile path :: rest => path :: reads rest
  | _ :: rest => reads rest

/-- The calls of `fetchValues` in a trace, in order. -/
def fetchCalls : List Event → List FetchCall
  | [] => []
  | Event.fetchValues call :: rest => call :: fetchCalls rest
  | _ :: rest => fetchCalls rest

/-- The maps given to `SerializeConsts` in a trace, in order. -/
def serialized : List Event → List ConstMap
  | [] => []
  | Event.serializeConsts consts :: rest => consts :: serialized rest
  | _ :: rest => serialized rest

/-- Every string among the arguments of a `fetchValues` call. -/
def FetchCall.strings (c : FetchCall) : List String :=
  c.arch :: (c.vals ++ c.includes ++ c.incdirs ++ c.defines.map Prod.fst ++
    c.defines.map Prod.snd ++ c.cflags)

/-- A stage before the write fails: the cases of lines 43-71 and 82-93. -/
inductive StageFails {Desc : Type} (env : Env Desc) (flags : Flags) : Prop where
  | linuxMissing : flags.linux = "" → StageFails env flags
  | archMissing : flags.arch = "" → StageFails env flags
  | archUnknown : archsLookup flags.arch = none → StageFails env flags
  | argCount : flags.args.length ≠ 1 → StageFails env flags
  | unreadable (inname err : String) :
      flags.args = [inname] → env.readFile inname = .error err → StageFails env flags
  | parseNil (inname : String) (indata : Bytes) :
      flags.args = [inname] → env.readFile inname = .ok indata →
      env.parse indata (filepathBase inname) = none → StageFails env flags
  | extractNil (inname : String) (indata : Bytes) (desc : Desc) :
      flags.args = [inname] → env.readFile inname = .ok indata →
      env.parse indata (filepathBase inname) = some desc →
      env.extractConsts desc = none → StageFails env flags
  | fetchError (inname : String) (indata : Bytes) (desc : Desc) (info : ConstInfo)
      (arch : Arch) (err : String) :
      flags.args = [inname] → env.readFile inname = .ok indata →
      env.parse indata (filepathBase inname) = some desc →
      env.extractConsts desc = some info → info.Consts ≠ [] →
      archsLookup flags.arch = some arch →
      env.fetchValues (defaultBld flags) (fetchArgs arch info) = .error err →
      StageFails env flags

/-! ## The extension of a file name, for comparison with line 61 -/

/-- The length of the extension, read off the reversed path as Go's `filepath.Ext`
scans it: back from the end to the first dot, giving up at a slash. -/
def extLenRev : List Char → Option Nat
  | [] => none
  | c :: rest =>
    if c = '/' then none
    else if c = '.' then some 1
    else (extLenRev rest).map (fun n => n + 1)

/-- Go's `filepath.Ext`: the suffix from the last dot of the last path element. -/
def filepathExt (path : String) : String :=
  match extLenRev path.data.reverse with
  | none => ""
  | some n => String.mk (path.data.drop (path.data.length - n))

/-- The output path in the words of the specification: the input file name with its
extension replaced by the architecture-qualified suffix. -/
def specOutname (inname flagArch : String) : String :=
  String.mk (inname.data.take (inname.data.length - (filepathExt inname).data.length)) ++
    ("_" ++ flagArch ++ ".const")

/-! ## Stand-ins for the collaborators, used at concrete inputs -/

/-- A length-prefixed encoding of one entry: name length, name, value in 8 bytes. -/
def stubEncodeEntry (kv : String × Nat) : Bytes :=
  UInt8.ofNat kv.1.data.length :: (kv.1.data.map (fun c => UInt8.ofNat c.toNat) ++
    (List.range 8).map (fun i => UInt8.ofNat (kv.2 / 256 ^ (7 - i) % 256)))

/-- A stand-in for `compiler.SerializeConsts`. -/
def stubSerialize (m : ConstMap) : Bytes :=
  (m.entries.map stubEncodeEntry).flatten

/-- The decoder of `stubSerialize`, reading at most `fuel` entries. -/
def stubDecode : Nat → Bytes → Option (List (String × Nat))
  | 0, _ => none
  | _ + 1, [] => some []
  | fuel + 1, n :: rest =>
    if rest.length < n.toNat + 8 then none
    else
      (stubDecode fuel (rest.drop (n.toNat + 8))).map (fun kvs =>
        (String.mk ((rest.take n.toNat).map (fun b => Char.ofNat b.toNat)),
          ((rest.drop n.toNat).take 8).foldl (fun acc b => acc * 256 + b.toNat) 0) :: kvs)

/-- A stand-in for the deserializer. -/
def stubDeserialize (data : Bytes) : Option ConstMap :=
  (stubDecode (data.length + 1) data).map ConstMap.make

/-- An environment whose collaborators give fixed answers: every file reads as empty
and parses, the requirement is `info`, the probe engine answers `fetched`, and the
write ends with `written`. -/
def stubEnv (info : Option ConstInfo) (fetched : Except String ConstMap)
    (written : Option String) : Env Unit :=
  { readFile := fun _ => .ok []
    parse := fun _ _ => some ()
    extractConsts := fun _ => info
    fetchValues := fun _ _ => fetched
    serializeConsts := stubSerialize
    writeFile := fun _ _ => written }

/-- A command line for `sys/foo.txt` on amd64. -/
def amd64Flags : Flags :=
  { linux := "/linux", linuxBld := "", arch := "amd64", v := 0, args := ["sys/foo.txt"] }

/-- The architecture entry of amd64. -/
def amd64 : Arch :=
  ⟨["__x86_64__"], "x86", "asm/unistd.h", ["-m64"]⟩

/-- A requirement for the two constants of the scenario. -/
def twoConsts : ConstInfo :=
  { Consts := ["EINVAL", "O_NONBLOCK"], Includes := ["linux/fcntl.h"], Incdirs := [],
    Defines := [] }

/-- The resolved map of the scenario. -/
def twoValues : ConstMap :=
  ConstMap.make [("EINVAL", 22), ("O_NONBLOCK", 2048)]

/-- A requirement with no constant names. -/
def noConsts : ConstInfo :=
  { Consts := [], Includes := ["linux/fcntl.h"], Incdirs := ["include"], Defines := [("A", "1")] }

/-! ## The probe engine, whose body is not among the source files -/

/-- What the toolchain reports for one requested symbol: a number, that the symbol is
undefined for this architecture, or output that is no number. -/
inductive Probed where
  | value (v : Nat) : Probed
  | undefined : Probed
  | malformed : Probed
  deriving DecidableEq, Repr

/-- Whether a report lets the resolution go on: a value that fits 64 bits, or an
undefined symbol. -/
def Probed.usable : Probed → Bool
  | .value v => decide (v < 2 ^ 64)
  | .undefined => true
  | .malformed => false

/-- The map assignment `res[name] = v` on the pairs of a map: an older pair under the
key `name` is dropped, so a key is never held twice. -/
def assignConst (name : String) (v : Nat) (kvs : List (String × Nat)) : List (String × Nat) :=
  (name, v) :: kvs.filter (fun kv => kv.1 != name)

/-- Modelled from the spec: the body of `fetchValues` (the Probe & Resolve Engine of
section 4.3) is missing from the source files.  A symbol reported undefined is left out
of the result without failing (item 3); a value that is no number or does not fit
64 bits is a hard failure, `MalformedValue` (item 4); the result is a map, so a
name requested twice is one key (section 3, keys are unique). -/
def resolveNames (report : String → Probed) : List String → Except String (List (String × Nat))
  | [] => .ok []
  | name :: rest =>
    match report name with
    | .undefined => resolveNames report rest
    | .malformed => .error "MalformedValue"
    | .value v =>
      if v < 2 ^ 64 then
        match resolveNames report rest with
        | .ok kvs => .ok (assignConst name v kvs)
        | .error err => .error err
      else .error "MalformedValue"

/-- Modelled from the spec: the body of `fetchValues` is missing from the source files;
this is its contract `resolve(...) -> ConstantMap | fails(ProbeError)` of section 4.3.
The toolchain is a parameter: one invocation for the whole call either fails
(`ToolchainInvocationFailed`) or reports on every symbol. -/
def resolve (toolchain : FetchCall → Except String (String → Probed)) (call : FetchCall) :
    Except String ConstMap :=
  match toolchain call with
  | .error err => .error err
  | .ok report =>
    match resolveNames report call.vals with
    | .ok kvs => .ok (ConstMap.make kvs)
    | .error err => .error err

/-- An environment like `stubEnv` whose probe engine is `resolve` over `toolchain`. -/
def resolveEnv (info : Option ConstInfo) (toolchain : FetchCall → Except String (String → Probed)) :
    Env Unit :=
  { readFile := fun _ => .ok []
    parse := fun _ _ => some ()
    extractConsts := fun _ => info
    fetchValues := fun _ call => resolve toolchain call
    serializeConsts := stubSerialize
    writeFile := fun _ _ => none }

/-- A requirement for one constant that only some architectures have and one that
every architecture has. -/
def guardedConsts : ConstInfo :=
  { Consts := ["ARCH_ONLY_CONST", "EINVAL"], Includes := ["linux/fcntl.h"], Incdirs := [],
    Defines := [] }

/-- A report in which `EINVAL` is 22 and every other symbol is guarded out. -/
def guardedReport : String → Probed :=
  fun name => if name = "EINVAL" then Probed.value 22 else Probed.undefined

/-- A toolchain that runs and answers `guardedReport`. -/
def guardedToolchain : FetchCall → Except String (String → Probed) :=
  fun _ => .ok guardedReport

/-! ## Lemmas on traces -/

theorem writes_append (xs ys : List Event) : writes (xs ++ ys) = writes xs ++ writes ys := by
  induction xs with
  | nil => rfl
  | cons e rest ih => cases e <;> simp [writes, ih]

theorem reads_append (xs ys : List Event) : reads (xs ++ ys) = reads xs ++ reads ys := by
  induction xs with
  | nil => rfl
  | cons e rest ih => cases e <;> simp [reads, ih]

theorem fetchCalls_append (xs ys : List Event) :
    fetchCalls (xs ++ ys) = fetchCalls xs ++ fetchCalls ys := by
  induction xs with
  | nil => rfl
  | cons e rest ih => cases e <;> simp [fetchCalls, ih]

theorem serialized_append (xs ys : List Event) :
    serialized (xs ++ ys) = serialized xs ++ serialized ys := by
  induction xs with
  | nil => rfl
  | cons e rest ih => cases e <;> simp [serialized, ih]

theorem writes_logf (flagV v : Int) (text : String) : writes (logf flagV v text) = [] := by
  unfold logf
  split <;> rfl

theorem reads_logf (flagV v : Int) (text : String) : reads (logf flagV v text) = [] := by
  unfold logf
  split <;> rfl

theorem logf_stderr (flagV v : Int) (text : String) :
    ∀ e ∈ logf flagV v text, ∃ t, e = Event.stderr t := by
  unfold logf
  split <;> simp

/-! ## C1 -/

/-- C1: in every run in which a stage before the write fails (no `-linux`, no or an
unknown `-arch`, a wrong number of arguments, an unreadable input, `Parse` or
`ExtractConsts` returning nil, `fetchValues` returning an error), the exit status
is not zero and the trace has no write of the output file. -/
theorem main_stage_failure_writes_nothing {Desc : Type} (env : Env Desc) (flags : Flags)
    (h : StageFails env flags) :
    exitStatus (main env flags).2 ≠ 0 ∧ writes (main env flags).1 = [] := by
  unfold main
  by_cases hl : flags.linux = ""
  · simp [hl, failf, exitStatus, writes]
  by_cases ha : flags.arch = ""
  · simp [hl, ha, failf, exitStatus, writes_append, writes_logf, writes]
    split <;> simp [writes_logf, writes]
  cases hk : archsLookup flags.arch with
  | none =>
    simp [hl, ha, failf, exitStatus, writes_append, writes]
    split <;> simp [writes_logf, writes]
  | some arch =>
    have hlog : writes (if flags.linuxBld = "" then
        logf flags.v 1 "No kernel build directory provided, assuming in-place build"
        else []) = [] := by
      split
      · exact writes_logf _ _ _
      · rfl
    cases h with
    | linuxMissing h0 => exact absurd h0 hl
    | archMissing h0 => exact absurd h0 ha
    | archUnknown h0 => simp [hk] at h0
    | argCount h0 =>
      simp only [hl, ha, if_false]
      split
      · simp_all
      · simp [failf, exitStatus, writes_append, hlog, writes]
    | unreadable inname err hargs hread =>
      simp [hl, ha, hargs, after, extractFile, hread, failf, exitStatus, writes_append, hlog,
        writes]
    | parseNil inname indata hargs hread hparse =>
      simp [hl, ha, hargs, after, extractFile, hread, hparse, exitStatus, writes_append, hlog,
        writes]
    | extractNil inname indata desc hargs hread hparse hext =>
      simp [hl, ha, hargs, after, extractFile, hread, hparse, compileAndWrite, compileConsts,
        hext, exitStatus, writes_append, hlog, writes]
    | fetchError inname indata desc info arch2 err hargs hread hparse hext hne hk2 hfetch =>
      have harch : arch2 = arch := by
        rw [hk] at hk2
        exact (Option.some.inj hk2).symm
      subst harch
      have hlen : ¬ info.Consts.length = 0 := by
        simpa [List.length_eq_zero] using hne
      simp [hl, ha, hargs, after, extractFile, hread, hparse, compileAndWrite, compileConsts,
        hext, hlen, hne, hfetch, failf, exitStatus, writes_append, hlog, writes]

/-- C1 at a concrete input: the toolchain cannot find a header; the run fails and
writes nothing. -/
theorem main_stage_failure_writes_nothing_witness :
    exitStatus (main (stubEnv (some twoConsts)
        (.error "failed to run gcc: fatal error: asm/unistd.h: No such file or directory") none)
        amd64Flags).2 ≠ 0 ∧
      writes (main (stubEnv (some twoConsts)
        (.error "failed to run gcc: fatal error: asm/unistd.h: No such file or directory") none)
        amd64Flags).1 = [] :=
  main_stage_failure_writes_nothing _ _
    (StageFails.fetchError "sys/foo.txt" [] () twoConsts amd64
      "failed to run gcc: fatal error: asm/unistd.h: No such file or directory"
      rfl rfl rfl rfl (by decide) (by decide) rfl)

/-! ## C2 -/

/-- C2, as stated, fails: with `-arch=mips` and no `-linux`, the run ends with the
missing `-linux` message, and the unknown-architecture message is never printed. -/
theorem main_unknown_arch_other_error :
    archsLookup "mips" = none ∧
      main (stubEnv (some twoConsts) (.ok twoValues) none)
        { linux := "", linuxBld := "", arch := "mips", v := 0, args := ["sys/foo.txt"] } =
        ([Event.stderr
          "provide path to linux kernel checkout via -linux flag (or make extract LINUX= flag)\n"],
          Outcome.exit 1) ∧
      Event.stderr "unknown arch mips\n" ∉
        (main (stubEnv (some twoConsts) (.ok twoValues) none)
          { linux := "", linuxBld := "", arch := "mips", v := 0, args := ["sys/foo.txt"] }).1 := by
  decide

/-- C2, amended: when the `-arch` value is not a key of `archs`, the run exits with
status 1 having read and written no file (its trace is lines of the error stream
only); and when `-linux` and `-arch` are both given, the last line printed is the
unknown-architecture message. -/
theorem main_unknown_arch_no_file_io {Desc : Type} (env : Env Desc) (flags : Flags)
    (h : archsLookup flags.arch = none) :
    exitStatus (main env flags).2 = 1 ∧
      reads (main env flags).1 = [] ∧ writes (main env flags).1 = [] ∧
      (∀ e ∈ (main env flags).1, ∃ text, e = Event.stderr text) ∧
      (flags.linux ≠ "" → flags.arch ≠ "" →
        (main env flags).1.getLast? = some (Event.stderr ("unknown arch " ++ flags.arch ++ "\n"))) := by
  unfold main
  by_cases hl : flags.linux = ""
  · simp [hl, failf, exitStatus, writes, reads]
  by_cases ha : flags.arch = ""
  · simp only [hl, ha, if_false, if_true, failf, exitStatus, writes_append, reads_append]
    refine ⟨trivial, ?_, ?_, ?_, ?_⟩
    · split <;> simp [reads_logf, reads]
    · split <;> simp [writes_logf, writes]
    · intro e he
      simp only [List.mem_append, List.mem_singleton] at he
      rcases he with he | he
      · split at he
        · exact logf_stderr _ _ _ e he
        · simp at he
      · exact ⟨_, he⟩
    · intro h1 h2
      exact absurd rfl h2
  · simp only [hl, ha, h, if_false, failf, exitStatus, writes_append, reads_append]
    refine ⟨trivial, ?_, ?_, ?_, ?_⟩
    · split <;> simp [reads_logf, reads]
    · split <;> simp [writes_logf, writes]
    · intro e he
      simp only [List.mem_append, List.mem_singleton] at he
      rcases he with he | he
      · split at he
        · exact logf_stderr _ _ _ e he
        · simp at he
      · exact ⟨_, he⟩
    · intro _ _
      simp

/-- C2, amended, at a concrete input: `-arch=mips` with `-linux` given. -/
theorem main_unknown_arch_no_file_io_witness :
    exitStatus (main (stubEnv (some twoConsts) (.ok twoValues) none)
        { amd64Flags with arch := "mips" }).2 = 1 ∧
      reads (main (stubEnv (some twoConsts) (.ok twoValues) none)
        { amd64Flags with arch := "mips" }).1 = [] ∧
      writes (main (stubEnv (some twoConsts) (.ok twoValues) none)
        { amd64Flags with arch := "mips" }).1 = [] ∧
      (∀ e ∈ (main (stubEnv (some twoConsts) (.ok twoValues) none)
        { amd64Flags with arch := "mips" }).1, ∃ text, e = Event.stderr text) ∧
      ((amd64Flags.linux ≠ "" → "mips" ≠ "" →
        (main (stubEnv (some twoConsts) (.ok twoValues) none)
          { amd64Flags with arch := "mips" }).1.getLast? =
          some (Event.stderr ("unknown arch " ++ "mips" ++ "\n")))) :=
  main_unknown_arch_no_file_io _ { amd64Flags with arch := "mips" } (by decide)

/-! ## C3 -/

/-- C3: when every stage succeeds (flags valid, input read and parsed, a requirement
with names extracted, `fetchValues` returning the map `m`, the write accepted), the
exit status is 0, the one map serialized is `m` itself, the one write puts
`SerializeConsts m` at the output path, and a deserializer that inverts the
serializer on `m` decodes the written bytes to exactly `m`. -/
theorem main_success_writes_serialized_map {Desc : Type} (env : Env Desc) (flags : Flags)
    (arch : Arch) (inname : String) (indata : Bytes) (desc : Desc) (info : ConstInfo)
    (m : ConstMap) (deserialize : Bytes → Option ConstMap)
    (hlinux : flags.linux ≠ "") (harch : flags.arch ≠ "")
    (hknown : archsLookup flags.arch = some arch) (hargs : flags.args = [inname])
    (hread : env.readFile inname = .ok indata)
    (hparse : env.parse indata (filepathBase inname) = some desc)
    (hext : env.extractConsts desc = some info) (hne : info.Consts ≠ [])
    (hfetch : env.fetchValues (defaultBld flags) (fetchArgs arch info) = .ok m)
    (hwrite : env.writeFile (outname inname flags.arch) (env.serializeConsts m) = none)
    (hround : deserialize (env.serializeConsts m) = some m) :
    exitStatus (main env flags).2 = 0 ∧
      serialized (main env flags).1 = [m] ∧
      writes (main env flags).1 = [(outname inname flags.arch, env.serializeConsts m)] ∧
      ∀ w ∈ writes (main env flags).1, deserialize w.2 = some m := by
  have hlen : ¬ info.Consts.length = 0 := by
    simpa [List.length_eq_zero] using hne
  have hbld : (defaultBld flags).arch = flags.arch := by
    unfold defaultBld
    split <;> rfl
  have hmain : main env flags =
      ((if flags.linuxBld = "" then
          logf flags.v 1 "No kernel build directory provided, assuming in-place build"
        else []) ++
        [Event.readFile inname, Event.parse indata (filepathBase inname), Event.extractConsts,
          Event.fetchValues (fetchArgs arch info), Event.serializeConsts m,
          Event.writeFile (outname inname flags.arch) (env.serializeConsts m)],
        Outcome.ret ()) := by
    simp [main, hlinux, harch, hknown, hargs, after, extractFile, hread, hparse,
      compileAndWrite, compileConsts, hext, hlen, hfetch, hbld, hwrite]
  have hlogw : writes (if flags.linuxBld = "" then
      logf flags.v 1 "No kernel build directory provided, assuming in-place build"
      else []) = [] := by
    split
    · exact writes_logf _ _ _
    · rfl
  have hlogs : serialized (if flags.linuxBld = "" then
      logf flags.v 1 "No kernel build directory provided, assuming in-place build"
      else []) = [] := by
    split
    · unfold logf
      split <;> rfl
    · rfl
  rw [hmain]
  simp [exitStatus, serialized_append, writes_append, hlogw, hlogs, serialized, writes, hround]

/-- C3 at the scenario of the specification: EINVAL and O_NONBLOCK on amd64 resolved
to 22 and 2048; the written bytes decode to exactly that map. -/
theorem main_success_writes_serialized_map_witness :
    exitStatus (main (stubEnv (some twoConsts) (.ok twoValues) none) amd64Flags).2 = 0 ∧
      serialized (main (stubEnv (some twoConsts) (.ok twoValues) none) amd64Flags).1 =
        [ConstMap.make [("EINVAL", 22), ("O_NONBLOCK", 2048)]] ∧
      writes (main (stubEnv (some twoConsts) (.ok twoValues) none) amd64Flags).1 =
        [("sys/foo_amd64.const", stubSerialize twoValues)] ∧
      ∀ w ∈ writes (main (stubEnv (some twoConsts) (.ok twoValues) none) amd64Flags).1,
        stubDeserialize w.2 = some (ConstMap.make [("EINVAL", 22), ("O_NONBLOCK", 2048)]) :=
  main_success_writes_serialized_map (stubEnv (some twoConsts) (.ok twoValues) none) amd64Flags
    amd64 "sys/foo.txt" [] () twoConsts twoValues stubDeserialize
    (by decide) (by decide) (by decide) rfl rfl rfl rfl (by decide) rfl rfl (by decide)

/-! ## C4 -/

/-- C4: when the extracted requirement has no constant names, `compileConsts` returns
the nil map and its trace has no call of `fetchValues`, whatever the architecture,
includes, include directories and defines are. -/
theorem compileConsts_empty_short_circuits {Desc : Type} (env : Env Desc) (flags : Flags)
    (arch : Arch) (desc : Desc) (info : ConstInfo)
    (hext : env.extractConsts desc = some info) (hempty : info.Consts = []) :
    (compileConsts env flags arch desc).2 = Outcome.ret ConstMap.nil ∧
      fetchCalls (compileConsts env flags arch desc).1 = [] := by
  simp [compileConsts, hext, hempty, fetchCalls]

/-- C4 at a concrete input: a requirement with includes, include directories and
defines but no names, on amd64. -/
theorem compileConsts_empty_short_circuits_witness :
    (compileConsts (stubEnv (some noConsts) (.ok twoValues) none) amd64Flags amd64 ()).2 =
        Outcome.ret ConstMap.nil ∧
      fetchCalls (compileConsts (stubEnv (some noConsts) (.ok twoValues) none) amd64Flags
        amd64 ()).1 = [] :=
  compileConsts_empty_short_circuits (stubEnv (some noConsts) (.ok twoValues) none) amd64Flags
    amd64 () noConsts rfl rfl

/-! ## C5 -/

/-- C5, as stated, fails: for the input name `sys/foo.c` the extension is not
replaced; the suffix is put after it. -/
theorem outname_keeps_other_extension :
    outname "sys/foo.c" "amd64" = "sys/foo.c_amd64.const" ∧
      specOutname "sys/foo.c" "amd64" = "sys/foo_amd64.const" ∧
      outname "sys/foo.c" "amd64" ≠ specOutname "sys/foo.c" "amd64" := by
  decide

theorem extLenRev_txt (base : List Char) :
    extLenRev (base ++ ['.', 't', 'x', 't']).reverse = some 4 := by
  simp [extLenRev]

/-- C5, amended: for an input name that ends in `.txt` the output path is the input
name with its extension replaced by `_<arch>.const`; for any other input name the
output path is the whole input name followed by `_<arch>.const`.  Either way it is
a function of the input name and the architecture identifier only. -/
theorem outname_replaces_txt_only (inname flagArch : String) :
    outname inname flagArch =
      if (".txt" : String).data.isSuffixOf inname.data then specOutname inname flagArch
      else inname ++ "_" ++ flagArch ++ ".const" := by
  have htxt : (".txt" : String).data = ['.', 't', 'x', 't'] := rfl
  by_cases h : (".txt" : String).data.isSuffixOf inname.data = true
  · rw [if_pos h]
    obtain ⟨base, hbase⟩ := List.isSuffixOf_iff_suffix.mp h
    rw [htxt] at hbase
    have hext : (filepathExt inname).data = ['.', 't', 'x', 't'] := by
      unfold filepathExt
      rw [← hbase, extLenRev_txt]
      simp
    unfold outname specOutname trimSuffix
    rw [if_pos h, hext, htxt]
    simp only [String.append_assoc]
  · rw [if_neg h]
    unfold outname trimSuffix
    rw [if_neg h]

/-! ## C6 -/

/-- C6: `archs` has an entry for each of amd64, 386, arm64, arm and ppc64le; every
entry has a non-empty `CARCH` list that shares no macro with the list of an entry
under another key, a non-empty `KernelHeaderArch` and a non-empty `KernelInclude`;
and the entries of 386 and arm have `-m32` among their `CFlags`. -/
theorem archs_registry_entries :
    (∀ name ∈ ["amd64", "386", "arm64", "arm", "ppc64le"], (archsLookup name).isSome = true) ∧
      (∀ e ∈ archs, e.2.CARCH ≠ [] ∧ e.2.KernelHeaderArch ≠ "" ∧ e.2.KernelInclude ≠ "") ∧
      (∀ e₁ ∈ archs, ∀ e₂ ∈ archs, e₁.1 ≠ e₂.1 → ∀ c ∈ e₁.2.CARCH, c ∉ e₂.2.CARCH) ∧
      (∀ name ∈ ["386", "arm"], ∃ arch, archsLookup name = some arch ∧ "-m32" ∈ arch.CFlags) := by
  refine ⟨by decide, by decide, by decide, ?_⟩
  intro name hname
  simp only [List.mem_cons, List.mem_singleton, List.not_mem_nil, or_false] at hname
  rcases hname with rfl | rfl
  · exact ⟨_, rfl, by decide⟩
  · exact ⟨_, rfl, by decide⟩

/-! ## C7 -/

theorem keyCount_eq_count (kvs : List (String × Nat)) (n : String) :
    (kvs.filter (fun kv => kv.1 == n)).length = (kvs.map Prod.fst).count n := by
  induction kvs with
  | nil => rfl
  | cons kv rest ih =>
    by_cases h : kv.1 = n
    · simp [List.filter_cons, h, ih]
    · simp [List.filter_cons, h, ih, List.count_cons]

theorem assignConst_mem (name : String) (v : Nat) (kvs : List (String × Nat)) (k : String)
    (w : Nat) :
    (k, w) ∈ assignConst name v kvs ↔ (k = name ∧ w = v) ∨ (k ≠ name ∧ (k, w) ∈ kvs) := by
  simp only [assignConst, List.mem_cons, List.mem_filter, Prod.mk.injEq, bne_iff_ne, ne_eq]
  tauto

theorem assignConst_nodup (name : String) (v : Nat) (kvs : List (String × Nat))
    (h : (kvs.map Prod.fst).Nodup) : ((assignConst name v kvs).map Prod.fst).Nodup := by
  simp only [assignConst, List.map_cons, List.nodup_cons]
  refine ⟨?_, ?_⟩
  · intro hmem
    obtain ⟨kv, hkv, hk⟩ := List.mem_map.mp hmem
    have := (List.mem_filter.mp hkv).2
    simp [hk] at this
  · exact List.Nodup.sublist (List.Sublist.map _ (List.filter_sublist _)) h

/-- What a successful `resolveNames` returns: a list of pairs with unique keys, holding
exactly the requested names that were reported with a value, each with that
value; and no requested name was reported malformed or too large. -/
theorem resolveNames_ok (report : String → Probed) :
    ∀ (names : List String) (kvs : List (String × Nat)),
      resolveNames report names = .ok kvs →
        (kvs.map Prod.fst).Nodup ∧
        (∀ k w, (k, w) ∈ kvs ↔ (k ∈ names ∧ report k = Probed.value w)) ∧
        (∀ n ∈ names, (report n).usable = true) := by
  intro names
  induction names with
  | nil =>
    intro kvs h
    simp [resolveNames] at h
    subst h
    simp
  | cons x xs ih =>
    intro kvs h
    unfold resolveNames at h
    cases hx : report x with
    | undefined =>
      simp only [hx] at h
      obtain ⟨h1, h2, h3⟩ := ih kvs h
      refine ⟨h1, fun k w => ?_, fun n hn => ?_⟩
      · rw [h2 k w]
        constructor
        · rintro ⟨hk, hr⟩
          exact ⟨List.mem_cons_of_mem _ hk, hr⟩
        · rintro ⟨hk, hr⟩
          rcases List.mem_cons.mp hk with hk | hk
          · rw [hk, hx] at hr
            exact Probed.noConfusion hr
          · exact ⟨hk, hr⟩
      · rcases List.mem_cons.mp hn with hn | hn
        · rw [hn, hx]
          rfl
        · exact h3 n hn
    | malformed =>
      simp only [hx] at h
      simp at h
    | value v =>
      simp only [hx] at h
      split at h
      · rename_i hv
        cases hr : resolveNames report xs with
        | error err =>
          rw [hr] at h
          simp at h
        | ok kvs2 =>
          rw [hr] at h
          simp only [Except.ok.injEq] at h
          subst h
          obtain ⟨h1, h2, h3⟩ := ih kvs2 hr
          refine ⟨assignConst_nodup x v kvs2 h1, fun k w => ?_, fun n hn => ?_⟩
          · rw [assignConst_mem, h2 k w]
            constructor
            · rintro (⟨hk, hw⟩ | ⟨_, hk, hrep⟩)
              · subst hk
                subst hw
                exact ⟨List.mem_cons_self _ _, hx⟩
              · exact ⟨List.mem_cons_of_mem _ hk, hrep⟩
            · rintro ⟨hk, hrep⟩
              by_cases hkx : k = x
              · left
                subst hkx
                rw [hx] at hrep
                exact ⟨rfl, (Probed.value.inj hrep).symm⟩
              · right
                rcases List.mem_cons.mp hk with hk | hk
                · exact absurd hk hkx
                · exact ⟨hkx, hk, hrep⟩
          · rcases List.mem_cons.mp hn with hn | hn
            · rw [hn, hx]
              simpa [Probed.usable] using hv
            · exact h3 n hn
      · simp at h

/-- When every requested name is reported with a value that fits or as undefined,
`resolveNames` succeeds. -/
theorem resolveNames_total (report : String → Probed) :
    ∀ names : List String, (∀ n ∈ names, (report n).usable = true) →
      ∃ kvs, resolveNames report names = .ok kvs := by
  intro names
  induction names with
  | nil =>
    intro _
    exact ⟨[], rfl⟩
  | cons x xs ih =>
    intro h
    obtain ⟨kvs, hk⟩ := ih (fun n hn => h n (List.mem_cons_of_mem _ hn))
    have hx := h x (List.mem_cons_self _ _)
    unfold resolveNames
    cases hr : report x with
    | undefined => exact ⟨kvs, hk⟩
    | malformed =>
      rw [hr] at hx
      simp [Probed.usable] at hx
    | value v =>
      rw [hr] at hx
      have hv : v < 2 ^ 64 := by simpa [Probed.usable] using hx
      refine ⟨assignConst x v kvs, ?_⟩
      simp only [hk]
      split
      · rfl
      · rename_i hn
        exact absurd hv hn

/-- C7, as stated, fails: with `ARCH_ONLY_CONST` and `EINVAL` requested and the first
guarded out for the architecture, `compileConsts` returns a map, and the requested
`ARCH_ONLY_CONST` is not a key of it. -/
theorem compileConsts_returns_map_missing_symbol :
    "ARCH_ONLY_CONST" ∈ guardedConsts.Consts ∧
      (compileConsts (resolveEnv (some guardedConsts) guardedToolchain) amd64Flags amd64 ()).2 =
        Outcome.ret (ConstMap.make [("EINVAL", 22)]) ∧
      (ConstMap.make [("EINVAL", 22)]).keyCount "ARCH_ONLY_CONST" = 0 := by
  decide

/-- C7, amended: when the toolchain runs and reports every requested name either with
a value that fits 64 bits or as undefined, `compileConsts` returns a map, so an
undefined symbol does not fail the run; and whenever `compileConsts` returns a map,
the map has unique keys, all of them requested names, a requested name the
toolchain resolved is a key of it exactly once, with its value, a requested name
reported undefined is not a key, and no requested name was reported malformed. -/
theorem compileConsts_keys_are_resolved_names {Desc : Type} (env : Env Desc) (flags : Flags)
    (arch : Arch) (desc : Desc) (info : ConstInfo)
    (toolchain : FetchCall → Except String (String → Probed)) (report : String → Probed)
    (hext : env.extractConsts desc = some info)
    (hengine : env.fetchValues flags (fetchArgs arch info) =
      resolve toolchain (fetchArgs arch info))
    (hrun : toolchain (fetchArgs arch info) = .ok report) :
    ((∀ n ∈ info.Consts, (report n).usable = true) →
        ∃ m, (compileConsts env flags arch desc).2 = Outcome.ret m) ∧
      ∀ m, (compileConsts env flags arch desc).2 = Outcome.ret m →
        m.WellFormed ∧ (∀ kv ∈ m.entries, kv.1 ∈ info.Consts) ∧
        ∀ n ∈ info.Consts,
          match report n with
          | .value v => m.keyCount n = 1 ∧ (n, v) ∈ m.entries
          | .undefined => m.keyCount n = 0
          | .malformed => False := by
  have hvals : (fetchArgs arch info).vals = info.Consts := rfl
  by_cases hlen : info.Consts.length = 0
  · have hnil : info.Consts = [] := List.length_eq_zero.mp hlen
    simp only [compileConsts, hext, hlen, if_true]
    refine ⟨fun _ => ⟨_, rfl⟩, fun m hm => ?_⟩
    simp only [Outcome.ret.injEq] at hm
    subst hm
    simp [ConstMap.WellFormed, ConstMap.entries, hnil]
  · simp only [compileConsts, hext, hlen, if_false, hengine, resolve, hrun, hvals]
    constructor
    · intro hus
      obtain ⟨kvs, hk⟩ := resolveNames_total report info.Consts hus
      exact ⟨ConstMap.make kvs, by simp [hk]⟩
    · intro m hm
      cases hr : resolveNames report info.Consts with
      | error err =>
        rw [hr] at hm
        simp [failf] at hm
      | ok kvs =>
        rw [hr] at hm
        simp only [Outcome.ret.injEq] at hm
        subst hm
        obtain ⟨h1, h2, h3⟩ := resolveNames_ok report info.Consts kvs hr
        refine ⟨⟨h1, fun kv hkv => ?_⟩, fun kv hkv => ?_, fun n hn => ?_⟩
        · have hm2 := (h2 kv.1 kv.2).mp hkv
          have hu := h3 kv.1 hm2.1
          rw [hm2.2] at hu
          simpa [Probed.usable] using hu
        · exact ((h2 kv.1 kv.2).mp hkv).1
        · cases hv : report n with
          | value v =>
            have hmem : (n, v) ∈ kvs := (h2 n v).mpr ⟨hn, hv⟩
            refine ⟨?_, hmem⟩
            unfold ConstMap.keyCount ConstMap.entries
            rw [keyCount_eq_count]
            exact List.count_eq_one_of_mem h1 (List.mem_map.mpr ⟨(n, v), hmem, rfl⟩)
          | undefined =>
            unfold ConstMap.keyCount ConstMap.entries
            rw [keyCount_eq_count]
            apply List.count_eq_zero_of_not_mem
            intro hmem
            obtain ⟨kv, hkv, hk⟩ := List.mem_map.mp hmem
            have hm2 := (h2 kv.1 kv.2).mp hkv
            rw [hk, hv] at hm2
            exact Probed.noConfusion hm2.2
          | malformed =>
            have hu := h3 n hn
            rw [hv] at hu
            simp [Probed.usable] at hu

/-- C7, amended, at a concrete input: with `ARCH_ONLY_CONST` guarded out and requested
first, the run returns a map; in it `EINVAL`, resolved to 22, is a key once, and
`ARCH_ONLY_CONST` is not a key. -/
theorem compileConsts_keys_are_resolved_names_witness :
    (∃ m, (compileConsts (resolveEnv (some guardedConsts) guardedToolchain) amd64Flags
        amd64 ()).2 = Outcome.ret m) ∧
      ((ConstMap.make [("EINVAL", 22)]).keyCount "EINVAL" = 1 ∧
        ("EINVAL", 22) ∈ (ConstMap.make [("EINVAL", 22)]).entries) ∧
      (ConstMap.make [("EINVAL", 22)]).keyCount "ARCH_ONLY_CONST" = 0 :=
  ⟨(compileConsts_keys_are_resolved_names (resolveEnv (some guardedConsts) guardedToolchain)
      amd64Flags amd64 () guardedConsts guardedToolchain guardedReport rfl rfl rfl).1
      (by decide),
    ((compileConsts_keys_are_resolved_names (resolveEnv (some guardedConsts) guardedToolchain)
      amd64Flags amd64 () guardedConsts guardedToolchain guardedReport rfl rfl rfl).2
      (ConstMap.make [("EINVAL", 22)]) (by decide)).2.2 "EINVAL" (by decide),
    ((compileConsts_keys_are_resolved_names (resolveEnv (some guardedConsts) guardedToolchain)
      amd64Flags amd64 () guardedConsts guardedToolchain guardedReport rfl rfl rfl).2
      (ConstMap.make [("EINVAL", 22)]) (by decide)).2.2 "ARCH_ONLY_CONST" (by decide)⟩

/-! ## C8 -/

/-- C8, as stated, fails: for a description with no constant references the probe
engine is skipped, but the nil map is serialized and the output file is written. -/
theorem main_no_consts_still_writes :
    noConsts.Consts = [] ∧
      main (stubEnv (some noConsts) (.ok twoValues) none) amd64Flags =
        ([Event.readFile "sys/foo.txt", Event.parse [] "foo.txt", Event.extractConsts,
          Event.serializeConsts ConstMap.nil, Event.writeFile "sys/foo_amd64.const" []],
          Outcome.ret ()) ∧
      writes (main (stubEnv (some noConsts) (.ok twoValues) none) amd64Flags).1 ≠ [] := by
  decide

/-- C8, amended: with valid flags, a readable input and a description that parses and
has no constant references, `fetchValues` is not called, the nil map is serialized,
its bytes are written to the output path, and the exit status is 0 exactly when that
write succeeds. -/
theorem main_no_consts_skips_probe_only {Desc : Type} (env : Env Desc) (flags : Flags)
    (arch : Arch) (inname : String) (indata : Bytes) (desc : Desc) (info : ConstInfo)
    (hlinux : flags.linux ≠ "") (harch : flags.arch ≠ "")
    (hknown : archsLookup flags.arch = some arch) (hargs : flags.args = [inname])
    (hread : env.readFile inname = .ok indata)
    (hparse : env.parse indata (filepathBase inname) = some desc)
    (hext : env.extractConsts desc = some info) (hempty : info.Consts = []) :
    fetchCalls (main env flags).1 = [] ∧
      serialized (main env flags).1 = [ConstMap.nil] ∧
      writes (main env flags).1 =
        [(outname inname flags.arch, env.serializeConsts ConstMap.nil)] ∧
      (exitStatus (main env flags).2 = 0 ↔
        env.writeFile (outname inname flags.arch) (env.serializeConsts ConstMap.nil) = none) := by
  have hbld : (defaultBld flags).arch = flags.arch := by
    unfold defaultBld
    split <;> rfl
  have hlog : ∀ t, t = (if flags.linuxBld = "" then
      logf flags.v 1 "No kernel build directory provided, assuming in-place build"
      else []) → fetchCalls t = [] ∧ serialized t = [] ∧ writes t = [] := by
    intro t ht
    subst ht
    split
    · unfold logf
      split <;> exact ⟨rfl, rfl, rfl⟩
    · exact ⟨rfl, rfl, rfl⟩
  obtain ⟨hf, hs, hw⟩ := hlog _ rfl
  cases hwr : env.writeFile (outname inname flags.arch) (env.serializeConsts ConstMap.nil) with
  | none =>
    simp [main, hlinux, harch, hknown, hargs, after, extractFile, hread, hparse,
      compileAndWrite, compileConsts, hext, hempty, hbld, hwr, exitStatus, fetchCalls_append,
      serialized_append, writes_append, hf, hs, hw, fetchCalls, serialized, writes]
  | some err =>
    simp [main, hlinux, harch, hknown, hargs, after, extractFile, hread, hparse,
      compileAndWrite, compileConsts, hext, hempty, hbld, hwr, failf, exitStatus,
      fetchCalls_append, serialized_append, writes_append, hf, hs, hw, fetchCalls, serialized,
      writes]

/-- C8, amended, at a concrete input: no constant names and a write that is refused;
the file write is attempted and the exit status is not 0. -/
theorem main_no_consts_skips_probe_only_witness :
    fetchCalls (main (stubEnv (some noConsts) (.ok twoValues) (some "permission denied"))
        amd64Flags).1 = [] ∧
      serialized (main (stubEnv (some noConsts) (.ok twoValues) (some "permission denied"))
        amd64Flags).1 = [ConstMap.nil] ∧
      writes (main (stubEnv (some noConsts) (.ok twoValues) (some "permission denied"))
        amd64Flags).1 = [(outname "sys/foo.txt" "amd64", stubSerialize ConstMap.nil)] ∧
      (exitStatus (main (stubEnv (some noConsts) (.ok twoValues) (some "permission denied"))
        amd64Flags).2 = 0 ↔ some "permission denied" = none) :=
  main_no_consts_skips_probe_only (stubEnv (some noConsts) (.ok twoValues)
    (some "permission denied")) amd64Flags amd64 "sys/foo.txt" [] () noConsts
    (by decide) (by decide) (by decide) rfl rfl rfl rfl rfl

/-! ## C9 -/

/-- C9, as stated, fails: on amd64 with `EINVAL` and `O_NONBLOCK` requested, the one call
of `fetchValues` gets the flags `-m64`, and the macro `__x86_64__` of `CARCH` is in
none of its arguments, not even as a part of one. -/
theorem fetch_call_lacks_CARCH :
    archsLookup "amd64" = some amd64 ∧ amd64.CARCH = ["__x86_64__"] ∧
      fetchCalls (compileConsts (stubEnv (some twoConsts) (.ok twoValues) none) amd64Flags
        amd64 ()).1 =
        [{ arch := "x86", vals := ["EINVAL", "O_NONBLOCK"],
           includes := ["linux/fcntl.h", "asm/unistd.h"], incdirs := [], defines := [],
           cflags := ["-m64"] }] ∧
      ∀ call ∈ fetchCalls (compileConsts (stubEnv (some twoConsts) (.ok twoValues) none)
          amd64Flags amd64 ()).1,
        ∀ s ∈ call.strings, ¬ ("__x86_64__".data <:+: s.data) := by
  decide

/-- C9, amended: for a description with at least one requested constant,
`compileConsts` calls `fetchValues` once, with the architecture's kernel header
subdirectory (`KernelHeaderArch`) as the first argument and the architecture's extra
compiler flags (`CFlags`) verbatim as the last; every string handed over comes from
`KernelHeaderArch`, `KernelInclude`, `CFlags` or the requirement, so `CARCH` is not
passed. -/
theorem compileConsts_fetch_call_arch_args {Desc : Type} (env : Env Desc) (flags : Flags)
    (arch : Arch) (desc : Desc) (info : ConstInfo)
    (hext : env.extractConsts desc = some info) (hne : info.Consts ≠ []) :
    ∃ call, fetchCalls (compileConsts env flags arch desc).1 = [call] ∧
      call.arch = arch.KernelHeaderArch ∧ call.cflags = arch.CFlags ∧
      ∀ s ∈ call.strings, s = arch.KernelHeaderArch ∨ s = arch.KernelInclude ∨
        s ∈ arch.CFlags ∨ s ∈ info.Consts ∨ s ∈ info.Includes ∨ s ∈ info.Incdirs ∨
        s ∈ info.Defines.map Prod.fst ∨ s ∈ info.Defines.map Prod.snd := by
  have hlen : ¬ info.Consts.length = 0 := by
    simpa [List.length_eq_zero] using hne
  refine ⟨fetchArgs arch info, ?_, rfl, rfl, ?_⟩
  · unfold compileConsts
    simp only [hext, hlen, if_false]
    cases env.fetchValues flags (fetchArgs arch info) <;> simp [failf, fetchCalls]
  · intro s hs
    simp only [FetchCall.strings, fetchArgs, List.mem_cons, List.mem_append,
      List.mem_singleton, List.not_mem_nil, or_false] at hs
    tauto

/-- C9, amended, at a concrete input: amd64 with two requested constants. -/
theorem compileConsts_fetch_call_arch_args_witness :
    ∃ call, fetchCalls (compileConsts (stubEnv (some twoConsts) (.ok twoValues) none)
        amd64Flags amd64 ()).1 = [call] ∧
      call.arch = "x86" ∧ call.cflags = ["-m64"] ∧
      ∀ s ∈ call.strings, s = "x86" ∨ s = "asm/unistd.h" ∨
        s ∈ ["-m64"] ∨ s ∈ twoConsts.Consts ∨ s ∈ twoConsts.Includes ∨ s ∈ twoConsts.Incdirs ∨
        s ∈ twoConsts.Defines.map Prod.fst ∨ s ∈ twoConsts.Defines.map Prod.snd :=
  compileConsts_fetch_call_arch_args (stubEnv (some twoConsts) (.ok twoValues) none)
    amd64Flags amd64 () twoConsts rfl (by decide)

/-! ## C10 -/

/-- C10: for a description with at least one requested constant, `compileConsts`
calls `fetchValues` once; the include list of the call is the requirement's
includes in their order, with nothing before them, followed by the architecture's
`KernelInclude` as the single last element; and the requested names, include
directories and defines of the call are those of the requirement, unchanged. -/
theorem compileConsts_fetch_call_includes {Desc : Type} (env : Env Desc) (flags : Flags)
    (arch : Arch) (desc : Desc) (info : ConstInfo)
    (hext : env.extractConsts desc = some info) (hne : info.Consts ≠ []) :
    ∃ call, fetchCalls (compileConsts env flags arch desc).1 = [call] ∧
      call.includes = info.Includes ++ [arch.KernelInclude] ∧
      call.includes.take info.Includes.length = info.Includes ∧
      call.includes.drop info.Includes.length = [arch.KernelInclude] ∧
      call.vals = info.Consts ∧ call.incdirs = info.Incdirs ∧ call.defines = info.Defines := by
  have hlen : ¬ info.Consts.length = 0 := by
    simpa [List.length_eq_zero] using hne
  refine ⟨fetchArgs arch info, ?_, rfl, ?_, ?_, rfl, rfl, rfl⟩
  · unfold compileConsts
    simp only [hext, hlen, if_false]
    cases env.fetchValues flags (fetchArgs arch info) <;> simp [failf, fetchCalls]
  · simp [fetchArgs]
  · simp [fetchArgs]

/-- C10 at a concrete input: arm with two requested constants and one include. -/
theorem compileConsts_fetch_call_includes_witness :
    ∃ call, fetchCalls (compileConsts (stubEnv (some twoConsts) (.ok twoValues) none)
        amd64Flags ⟨["__arm__"], "arm", "asm/unistd.h", ["-D__LINUX_ARM_ARCH__=6", "-m32"]⟩
        ()).1 = [call] ∧
      call.includes = ["linux/fcntl.h"] ++ ["asm/unistd.h"] ∧
      call.includes.take 1 = ["linux/fcntl.h"] ∧
      call.includes.drop 1 = ["asm/unistd.h"] ∧
      call.vals = ["EINVAL", "O_NONBLOCK"] ∧ call.incdirs = [] ∧ call.defines = [] :=
  compileConsts_fetch_call_includes (stubEnv (some twoConsts) (.ok twoValues) none)
    amd64Flags ⟨["__arm__"], "arm", "asm/unistd.h", ["-D__LINUX_ARM_ARCH__=6", "-m32"]⟩ ()
    twoConsts rfl (by decide)

end SyzExtract
